import Mathlib

/-!
Verification of the procedural circuit-background engine
(src/public/scripts/circuit-background.js).

The JavaScript is shallowly embedded as executable Lean definitions:

* grid coordinates are integers (a walk may step to a negative index, where
  the source's optional-chaining lookup yields undefined);
* particle arithmetic (progress, velocity, pixel positions) is modelled with
  exact rationals;
* every call to Math.random is replaced by an explicit parameter describing
  the outcome of that one call, ranging over exactly the values the source
  can sample (an index for randomChoice, a Bool for a probability-0.5 coin,
  an offset for the target length sample);
* colours and canvas drawing are pure presentation and are not modelled;
* a lookup that would throw a TypeError in JavaScript (indexing with
  undefined) is modelled as Option none where a claim depends on it
  (Particle.update); helpers that the generator only ever calls on
  in-bounds cells (markUsed) are modelled total, and the theorems about
  them carry the in-bounds facts as hypotheses.
-/

namespace CircuitBg

/-! ## Constants (source lines 36-48; colour strings are presentation only) -/

def PARTICLE_SPEED_MIN : ℚ := 22 / 100

def PARTICLE_SPEED_MAX : ℚ := 1 / 2

def CELL_SIZE : Nat := 10

def CIRCUIT_MIN_LENGTH : Nat := 3

def CIRCUIT_MAX_LENGTH : Nat := 16

/-! ## Grid data structures -/

/-- Source class Column: a vertical strip of the occupancy grid.
Entries of rows are 0 (free) or 1 (used); free mirrors the source's
cached counter of free cells. -/
structure Column where
  rows : List Nat
  free : Int
deriving DecidableEq, Repr

/-- Column constructor: rows zeros and a full free counter. -/
def Column.init (n : Nat) : Column :=
  { rows := List.replicate n 0, free := (n : Int) }

/-- The scene field of class Circuits: one Column per grid column. -/
abbrev Scene := List Column

/-- Scene built by the Circuits constructor: cols columns of rows free
cells, where cols = floor(width / size) and rows = floor(height / size). -/
def initScene (cols rows : Nat) : Scene :=
  List.replicate cols (Column.init rows)

/-- Value of a grid cell; none when the coordinate is outside the grid
(the source's optional-chaining lookup produces undefined there). -/
def cellVal (s : Scene) (x y : Int) : Option Nat :=
  if 0 ≤ x ∧ 0 ≤ y then
    match s.get? x.toNat with
    | some col => col.rows.get? y.toNat
    | none => none
  else none

/-- A cell is free when it is inside the grid and holds 0.  An
out-of-bounds cell compares as not free, exactly like the source's
strict equality of an undefined lookup against 0. -/
def isFree (s : Scene) (x y : Int) : Bool := cellVal s x y == some 0

/-- Replace the column at an index, leaving the scene unchanged when the
index is out of range. -/
def modifyCol (f : Column → Column) : Scene → Nat → Scene
  | [], _ => []
  | c :: cs, 0 => f c :: cs
  | c :: cs, n + 1 => c :: modifyCol f cs n

/-- Source utility randomChoice: array[floor(random * length)].  The
parameter pick stands for the sampled number; reduction mod length ranges
over exactly the indices the source can draw. -/
def randomChoice {α : Type} (l : List α) (pick : Nat) : Option α :=
  l.get? (pick % l.length)

/-- The four orthogonal unit directions (local array dirs in
Circuits.getDirection). -/
def dirs : List (Int × Int) := [(1, 0), (-1, 0), (0, 1), (0, -1)]

/-- Source class Circuit.  The colour pair is presentation only and is
not modelled; the source field named end is rendered endCell because end
is a Lean keyword. -/
structure Circuit where
  start : Int × Int
  size : Nat
  path : List (Int × Int)
  endCell : Option (Int × Int)
  coords : List (Int × Int)
  length : Nat
deriving DecidableEq, Repr

/-- Configuration slice of the Circuits constructor arguments. -/
structure Cfg where
  size : Nat
  minLength : Nat
  maxLength : Nat
deriving DecidableEq, Repr

namespace Circuits

/-- Source Circuits.isBlocked: the zero-vector sentinel test. -/
def isBlocked (d : Int × Int) : Bool := d.1 == 0 && d.2 == 0

/-- Source Circuits.markUsed: set the cell to 1 and decrement the
column's free counter.  The generator only ever invokes it on free
(hence in-bounds) cells. -/
def markUsed (s : Scene) (x y : Int) : Scene :=
  modifyCol (fun col => { rows := col.rows.set y.toNat 1, free := col.free - 1 }) s x.toNat

/-- Fallback branch of Circuits.getDirection: filter the four unit
directions by freeness of the target cell and draw one at random,
returning the zero-vector sentinel when none is free. -/
def pickDir (s : Scene) (x y : Int) (pick : Nat) : Int × Int :=
  let options := dirs.filter fun d => isFree s (x + d.1) (y + d.2)
  match randomChoice options pick with
  | some d => d
  | none => (0, 0)

/-- Source Circuits.getDirection: with probability one half continue in
the previous direction when its target is free, otherwise draw among the
free orthogonal neighbours.  coin is the outcome of the comparison
random < 0.5 and pick the randomChoice sample. -/
def getDirection (s : Scene) (x y : Int) (prev : Option (Int × Int))
    (coin : Bool) (pick : Nat) : Int × Int :=
  match prev with
  | some p =>
    if coin && isFree s (x + p.1) (y + p.2) then p
    else pickDir s x y pick
  | none => pickDir s x y pick

/-- Source Circuits.getStart: up to ten tries, each drawing a column and
then a row among that column's free cells; the list holds one
(column sample, row sample) pair per try (length ten in the source). -/
def getStart (s : Scene) : List (Nat × Nat) → Option (Nat × Nat)
  | [] => none
  | (cr, rr) :: rest =>
    match s.get? (cr % s.length) with
    | none => getStart s rest
    | some col =>
      if col.free == 0 then getStart s rest
      else
        let pool := (List.range col.rows.length).filter fun i => col.rows.get? i == some 0
        match randomChoice pool rr with
        | some r => some (cr % s.length, r)
        | none => getStart s rest

/-- Result of the stepping loop inside Circuits.buildCircuit: the mutated
scene, the pushed direction list (circuit.path), the visited cells after
the start (the tail of coords), and the final position. -/
structure BuildOut where
  scene : Scene
  path : List (Int × Int)
  coordsTail : List (Int × Int)
  finalPos : Int × Int
deriving DecidableEq, Repr

/-- The while loop of Circuits.buildCircuit (source lines 225-236): step
into the current direction, record it, mark the new cell used, then ask
getDirection for the next direction and stop on the blocked sentinel.
fuel is the sampled target step count; rnd supplies the (coin, pick)
randomness of each getDirection call. -/
def buildLoop : (Nat → Bool × Nat) → Scene → Int × Int → Int × Int → Nat → BuildOut
  | _, s, pos, _, 0 => ⟨s, [], [], pos⟩
  | rnd, s, pos, dir, fuel + 1 =>
    let pos' := (pos.1 + dir.1, pos.2 + dir.2)
    let s' := markUsed s pos'.1 pos'.2
    let dir' := getDirection s' pos'.1 pos'.2 (some dir) (rnd 0).1 (rnd 0).2
    if isBlocked dir' then ⟨s', [dir], [pos'], pos'⟩
    else
      let r := buildLoop (fun n => rnd (n + 1)) s' pos' dir' fuel
      ⟨r.scene, dir :: r.path, pos' :: r.coordsTail, r.finalPos⟩

/-- Source Circuits.buildCircuit.  The target step count is
minLength + lenRand where lenRand stands for floor(random *
(maxLength - minLength)); the path is accepted only when at least
minLength steps were taken, and the scene mutations are kept either
way. -/
def buildCircuit (cfg : Cfg) (s : Scene) (start dir : Int × Int)
    (lenRand : Nat) (rnd : Nat → Bool × Nat) : Scene × Option Circuit :=
  let r := buildLoop rnd s start dir (cfg.minLength + lenRand)
  if cfg.minLength ≤ r.path.length then
    (r.scene, some ⟨start, cfg.size, r.path, some r.finalPos,
      start :: r.coordsTail, r.path.length * cfg.size⟩)
  else
    (r.scene, none)

/-- Randomness consumed by one iteration of the populate loop: the
getStart tries, the coin and pick of the initial getDirection call (the
coin is short-circuited away since prev is null), the target length
sample, and the per-step randomness handed to buildCircuit. -/
structure AttemptRand where
  starts : List (Nat × Nat)
  dcoin : Bool
  dpick : Nat
  lenRand : Nat
  steps : Nat → Bool × Nat

/-- Source Circuits.populate (the constructor passes an attempt budget of
1000, here the length of the attempt list): a failed getStart breaks the
whole loop, a blocked initial direction skips the attempt, otherwise the
start cell is marked used and buildCircuit runs, pushing an accepted
circuit onto the collection. -/
def populate (cfg : Cfg) : List AttemptRand → Scene → List Circuit → Scene × List Circuit
  | [], s, acc => (s, acc)
  | a :: rest, s, acc =>
    match getStart s a.starts with
    | none => (s, acc)
    | some (cx, cy) =>
      let dir := getDirection s (cx : Int) (cy : Int) none a.dcoin a.dpick
      if isBlocked dir then populate cfg rest s acc
      else
        match buildCircuit cfg (markUsed s (cx : Int) (cy : Int)) ((cx : Int), (cy : Int))
            dir a.lenRand a.steps with
        | (s2, some c) => populate cfg rest s2 (acc ++ [c])
        | (s2, none) => populate cfg rest s2 acc

end Circuits

/-! ## Particle layer -/

/-- Source utility getCellCenter. -/
def getCellCenter (x y : Int) (size : ℚ) : ℚ × ℚ :=
  ((x : ℚ) * size + size / 2, (y : ℚ) * size + size / 2)

/-- Truncation toward zero on rationals, the rounding JavaScript's
remainder operator is built on. -/
def truncQ (q : ℚ) : Int := if 0 ≤ q then ⌊q⌋ else ⌈q⌉

/-- JavaScript remainder a % b: the dividend minus the divisor times the
truncated quotient. -/
def jsMod (a b : ℚ) : ℚ := a - b * (truncQ (a / b) : ℚ)

/-- Source class Particle: a moving point bound to one circuit. -/
structure Particle where
  circuit : Circuit
  velocity : ℚ
  progress : ℚ
  x : ℚ
  y : ℚ
deriving DecidableEq, Repr

/-- Advance-and-bounce half of Particle.update (source lines 333-339):
add the velocity and, when the result leaves [0, length], negate the
velocity and add the new velocity once more.  Returns the new
(velocity, progress) pair. -/
def Particle.advance (p : Particle) : ℚ × ℚ :=
  let len : ℚ := (p.circuit.length : ℚ)
  let prog := p.progress + p.velocity
  if prog ≤ 0 ∨ len ≤ prog then (-p.velocity, prog + -p.velocity)
  else (p.velocity, prog)

/-- Source Particle.update.  The segment lookups path[index] and
coords[index] produce undefined in JavaScript when index falls outside
the arrays, and destructuring undefined throws; that fault is modelled
as none. -/
def Particle.update (p : Particle) : Option Particle :=
  let size : ℚ := (p.circuit.size : ℚ)
  let vp := p.advance
  let idx : Int := ⌊vp.2 / size⌋
  if idx < 0 then none
  else
    match p.circuit.path.get? idx.toNat, p.circuit.coords.get? idx.toNat with
    | some d, some c =>
      some { p with
        velocity := vp.1
        progress := vp.2
        x := (c.1 : ℚ) * size + size / 2 + (d.1 : ℚ) * jsMod vp.2 size
        y := (c.2 : ℚ) * size + size / 2 + (d.2 : ℚ) * jsMod vp.2 size }
    | _, _ => none

/-- Iterated ticks of Particle.update, propagating the fault. -/
def iterUpdate : Nat → Particle → Option Particle
  | 0, p => some p
  | n + 1, p =>
    match Particle.update p with
    | some q => iterUpdate n q
    | none => none

/-! ## Derived occupancy notions used by the statements -/

/-- Number of free cells actually present in a column's row list. -/
def countZeros (l : List Nat) : Nat := (l.filter fun v => v == 0).length

/-- The free counter of every column agrees with the number of free
cells it contains (the implicit invariant behind getStart's skip of
columns with free = 0). -/
def SceneInv (s : Scene) : Prop := ∀ col ∈ s, col.free = (countZeros col.rows : Int)

/-- Every cell of the circuit's coordinate sequence is occupied in the
scene. -/
def circMarked (s : Scene) (c : Circuit) : Prop :=
  ∀ p ∈ c.coords, isFree s p.1 p.2 = false

/-- The coordinate sequences of two circuits share no cell. -/
def coordsDisjoint (c₁ c₂ : Circuit) : Prop :=
  ∀ p, p ∈ c₁.coords → p ∉ c₂.coords

/-- Relation between consecutive cells of a path: the second is the
first plus one of the four unit directions. -/
def stepRel (p q : Int × Int) : Prop :=
  ∃ d ∈ dirs, q = (p.1 + d.1, p.2 + d.2)

/-! ## Concrete inputs used by witnesses and the counterexample -/

/-- Degenerate randomness stream: always take the continue-straight coin
and pick index 0. -/
def rndT : Nat → Bool × Nat := fun _ => (true, 0)

/-- Small configuration: cell size 10, path length in [1, 3). -/
def cfgEx : Cfg := ⟨10, 1, 3⟩

/-- A fully occupied four-cell column. -/
def colFull : Column := ⟨[1, 1, 1, 1], 0⟩

/-- Four-by-four scene whose first column is saturated. -/
def sceneEx : Scene := [colFull, Column.init 4, Column.init 4, Column.init 4]

/-- Attempt whose ten start tries all sample the saturated column 0. -/
def aBad : Circuits.AttemptRand := ⟨List.replicate 10 (0, 0), true, 0, 1, rndT⟩

/-- Attempt that samples column 1 and immediately finds a free start. -/
def aGood : Circuits.AttemptRand := ⟨[(1, 0)], true, 0, 1, rndT⟩

/-- One five-cell column whose head cell (the start) is already marked. -/
def sW : Scene := [⟨[1, 0, 0, 0, 0], 4⟩]

/-- Configuration with minimum length 3 used for the rejection run. -/
def cfgC9 : Cfg := ⟨10, 3, 5⟩

/-- One three-cell column whose head cell is already marked: a walk from
its head blocks after two steps, under the minimum of cfgC9. -/
def s9 : Scene := [⟨[1, 0, 0], 2⟩]

/-- Configuration with minimum length 2: the blocked two-step walk on s9
is accepted with exactly the minimum number of steps. -/
def cfgB : Cfg := ⟨10, 2, 4⟩

/-- A concrete three-step circuit (path length 30 pixels). -/
def cEx : Circuit :=
  ⟨(0, 0), 10, [(0, 1), (0, 1), (0, 1)], some (0, 3),
    [(0, 0), (0, 1), (0, 2), (0, 3)], 30⟩

/-- Particle on cEx in mid-path. -/
def pEx : Particle := ⟨cEx, 3 / 10, 5, 0, 0⟩

/-- Particle on cEx about to overrun the end of the path. -/
def pBounce : Particle := ⟨cEx, 3 / 10, 299 / 10, 0, 0⟩

/-- Scene left by the two-step walk on sW. -/
def sWout : Scene := [⟨[1, 1, 1, 0, 0], 2⟩]

/-- The circuit built on sW from (0,0) with initial direction (0,1). -/
def cW2 : Circuit :=
  ⟨(0, 0), 10, [(0, 1), (0, 1)], some (0, 2), [(0, 0), (0, 1), (0, 2)], 20⟩

/-- Attempt used for the rejection run on a one-column scene. -/
def a9 : Circuits.AttemptRand := ⟨[(0, 0)], true, 0, 0, rndT⟩

/-- Scene left by the rejected walk on the one-column three-cell grid. -/
def s9out : Scene := [⟨[1, 1, 1], 0⟩]

end CircuitBg

/-! # Helper lemmas -/

namespace CircuitBg

theorem isFree_iff {s : Scene} {x y : Int} :
    isFree s x y = true ↔ cellVal s x y = some 0 := by
  simp [isFree]

theorem isFree_nonneg {s : Scene} {x y : Int} (h : isFree s x y = true) :
    0 ≤ x ∧ 0 ≤ y := by
  rw [isFree_iff] at h
  unfold cellVal at h
  by_cases hxy : 0 ≤ x ∧ 0 ≤ y
  · exact hxy
  · rw [if_neg hxy] at h
    cases h

theorem modifyCol_get_self (f : Column → Column) :
    ∀ (s : Scene) (n : Nat), (modifyCol f s n).get? n = (s.get? n).map f := by
  intro s
  induction s with
  | nil => intro n; cases n <;> simp [modifyCol]
  | cons c cs ih =>
    intro n
    cases n with
    | zero => simp [modifyCol]
    | succ m => simpa [modifyCol] using ih m

theorem modifyCol_get_ne (f : Column → Column) :
    ∀ (s : Scene) (m n : Nat), m ≠ n → (modifyCol f s n).get? m = s.get? m := by
  intro s
  induction s with
  | nil => intro m n _; cases n <;> simp [modifyCol]
  | cons c cs ih =>
    intro m n hmn
    cases n with
    | zero =>
      cases m with
      | zero => exact absurd rfl hmn
      | succ m' => simp [modifyCol]
    | succ n' =>
      cases m with
      | zero => simp [modifyCol]
      | succ m' => simpa [modifyCol] using ih m' n' (by omega)

theorem randomChoice_mem {α : Type} {l : List α} {pick : Nat} {a : α}
    (h : randomChoice l pick = some a) : a ∈ l :=
  List.get?_mem h

theorem cellVal_markUsed_cases (s : Scene) (x y a b : Int) :
    cellVal (Circuits.markUsed s x y) a b = cellVal s a b ∨
    cellVal (Circuits.markUsed s x y) a b = some 1 := by
  unfold cellVal Circuits.markUsed
  by_cases hab : 0 ≤ a ∧ 0 ≤ b
  · rw [if_pos hab, if_pos hab]
    by_cases hax : a.toNat = x.toNat
    · rw [hax, modifyCol_get_self]
      cases hcol : s.get? x.toNat with
      | none => left; simp
      | some col =>
        simp only [Option.map_some']
        by_cases hby : b.toNat = y.toNat
        · rw [hby]
          cases hrow : col.rows.get? y.toNat with
          | none =>
            left
            rw [List.get?_set_eq, hrow]
            rfl
          | some v =>
            right
            rw [List.get?_set_eq, hrow]
            rfl
        · left
          exact List.get?_set_ne 1 col.rows fun h => hby h.symm
    · left
      rw [modifyCol_get_ne _ s a.toNat x.toNat hax]
  · rw [if_neg hab, if_neg hab]
    left
    rfl

theorem markUsed_mono {s : Scene} {x y a b : Int}
    (h : isFree (Circuits.markUsed s x y) a b = true) : isFree s a b = true := by
  rw [isFree_iff] at h ⊢
  rcases cellVal_markUsed_cases s x y a b with hc | hc
  · rw [← hc]; exact h
  · rw [hc] at h; cases h

theorem markUsed_not_free {s : Scene} {x y a b : Int}
    (h : isFree s a b = false) : isFree (Circuits.markUsed s x y) a b = false := by
  cases hv : isFree (Circuits.markUsed s x y) a b
  · rfl
  · rw [markUsed_mono hv] at h
    cases h

theorem markUsed_self {s : Scene} {x y : Int} (h : isFree s x y = true) :
    isFree (Circuits.markUsed s x y) x y = false := by
  obtain ⟨hx, hy⟩ := isFree_nonneg h
  rw [isFree_iff] at h
  unfold cellVal at h
  rw [if_pos ⟨hx, hy⟩] at h
  rw [isFree]
  unfold cellVal Circuits.markUsed
  rw [if_pos ⟨hx, hy⟩, modifyCol_get_self]
  cases hcol : s.get? x.toNat with
  | none => rw [hcol] at h; cases h
  | some col =>
    rw [hcol] at h
    have hrow : col.rows.get? y.toNat = some 0 := h
    simp only [Option.map_some']
    rw [List.get?_set_eq, hrow]
    rfl

theorem cellVal_markUsed_other {s : Scene} {x y a b : Int} (hx : 0 ≤ x) (hy : 0 ≤ y)
    (hne : a ≠ x ∨ b ≠ y) : cellVal (Circuits.markUsed s x y) a b = cellVal s a b := by
  unfold cellVal Circuits.markUsed
  by_cases hab : 0 ≤ a ∧ 0 ≤ b
  · rw [if_pos hab, if_pos hab]
    by_cases hax : a.toNat = x.toNat
    · have hA : a = x := by omega
      have hB : b ≠ y := by
        rcases hne with h | h
        · exact absurd hA h
        · exact h
      rw [hax, modifyCol_get_self]
      cases hcol : s.get? x.toNat with
      | none => simp
      | some col =>
        simp only [Option.map_some']
        exact List.get?_set_ne 1 col.rows (by omega)
    · rw [modifyCol_get_ne _ s a.toNat x.toNat hax]
  · rw [if_neg hab, if_neg hab]

theorem countZeros_replicate (n : Nat) : countZeros (List.replicate n 0) = n := by
  induction n with
  | zero => rfl
  | succ m ih =>
    rw [List.replicate_succ]
    simpa [countZeros, List.filter_cons] using ih

theorem countZeros_set {l : List Nat} : ∀ {m : Nat},
    l.get? m = some 0 → countZeros (l.set m 1) + 1 = countZeros l := by
  induction l with
  | nil => intro m h; cases h
  | cons a t ih =>
    intro m h
    cases m with
    | zero =>
      have ha : a = 0 := by simpa using h
      subst ha
      simp [countZeros, List.filter_cons]
    | succ m' =>
      have h' : t.get? m' = some 0 := by simpa using h
      have hstep := ih h'
      rw [List.set_cons_succ]
      simp only [countZeros, List.filter_cons] at hstep ⊢
      by_cases ha : (a == 0) = true
      · rw [if_pos ha, if_pos ha]
        simp only [List.length_cons]
        omega
      · rw [if_neg ha, if_neg ha]
        exact hstep

theorem mem_modifyCol {f : Column → Column} :
    ∀ {s : Scene} {n : Nat} {col : Column},
      col ∈ modifyCol f s n → col ∈ s ∨ ∃ c, s.get? n = some c ∧ col = f c := by
  intro s
  induction s with
  | nil => intro n col h; cases n <;> simp [modifyCol] at h
  | cons c cs ih =>
    intro n col h
    cases n with
    | zero =>
      rcases List.mem_cons.mp h with h' | h'
      · right; exact ⟨c, by simp, h'⟩
      · left; exact List.mem_cons_of_mem _ h'
    | succ m =>
      rcases List.mem_cons.mp h with h' | h'
      · left; simp [h']
      · rcases ih h' with h'' | ⟨c', hc', rfl⟩
        · left; exact List.mem_cons_of_mem _ h''
        · right; exact ⟨c', by simpa using hc', rfl⟩

theorem markUsed_sceneInv {s : Scene} {x y : Int} (hfree : isFree s x y = true)
    (hinv : SceneInv s) : SceneInv (Circuits.markUsed s x y) := by
  intro col hcol
  rcases mem_modifyCol hcol with h | ⟨c, hc, rfl⟩
  · exact hinv col h
  · obtain ⟨hx, hy⟩ := isFree_nonneg hfree
    have hv := isFree_iff.mp hfree
    unfold cellVal at hv
    rw [if_pos ⟨hx, hy⟩, hc] at hv
    have hcInv := hinv c (List.get?_mem hc)
    have hcz := countZeros_set (l := c.rows) (m := y.toNat) hv
    show c.free - 1 = (countZeros (c.rows.set y.toNat 1) : Int)
    rw [hcInv]
    omega

theorem pickDir_spec (s : Scene) (x y : Int) (pick : Nat) (r : Int × Int)
    (hr : Circuits.pickDir s x y pick = r) :
    (r ∈ dirs ∧ isFree s (x + r.1) (y + r.2) = true) ∨
    (r = (0, 0) ∧ ∀ d ∈ dirs, isFree s (x + d.1) (y + d.2) = false) := by
  subst hr
  unfold Circuits.pickDir
  cases hrc : randomChoice (dirs.filter fun d => isFree s (x + d.1) (y + d.2)) pick with
  | some d =>
    left
    have hmem := randomChoice_mem hrc
    rw [List.mem_filter] at hmem
    simp only [hrc]
    exact hmem
  | none =>
    right
    refine ⟨by simp only [hrc], ?_⟩
    have hempty : (dirs.filter fun d => isFree s (x + d.1) (y + d.2)) = [] := by
      by_contra hne
      have hlen := List.length_pos.mpr hne
      have hmod := Nat.mod_lt pick hlen
      unfold randomChoice at hrc
      rw [List.get?_eq_none] at hrc
      omega
    intro d hd
    have hnot := List.filter_eq_nil.mp hempty d hd
    cases hfd : isFree s (x + d.1) (y + d.2)
    · rfl
    · exact absurd hfd hnot

theorem getDirection_spec (s : Scene) (x y : Int) (prev : Option (Int × Int))
    (coin : Bool) (pick : Nat) (r : Int × Int)
    (hr : Circuits.getDirection s x y prev coin pick = r)
    (hprev : prev = none ∨ ∃ p, prev = some p ∧ p ∈ dirs) :
    (r ∈ dirs ∧ isFree s (x + r.1) (y + r.2) = true) ∨
    (r = (0, 0) ∧ ∀ d ∈ dirs, isFree s (x + d.1) (y + d.2) = false) := by
  rcases hprev with rfl | ⟨p, rfl, hp⟩
  · exact pickDir_spec s x y pick r hr
  · unfold Circuits.getDirection at hr
    have hr' : (if (coin && isFree s (x + p.1) (y + p.2)) = true then p
        else Circuits.pickDir s x y pick) = r := hr
    by_cases hc : (coin && isFree s (x + p.1) (y + p.2)) = true
    · rw [if_pos hc] at hr'
      subst hr'
      rw [Bool.and_eq_true] at hc
      exact Or.inl ⟨hp, hc.2⟩
    · rw [if_neg hc] at hr'
      exact pickDir_spec s x y pick r hr'

theorem getStart_spec {s : Scene} : ∀ {tries : List (Nat × Nat)} {cx cy : Nat},
    Circuits.getStart s tries = some (cx, cy) → cellVal s (cx : Int) (cy : Int) = some 0 := by
  intro tries
  induction tries with
  | nil => intro cx cy h; cases h
  | cons t rest ih =>
    intro cx cy h
    obtain ⟨cr, rr⟩ := t
    rw [Circuits.getStart] at h
    cases hcol : s.get? (cr % s.length) with
    | none =>
      rw [hcol] at h
      exact ih h
    | some col =>
      rw [hcol] at h
      have h' : (if (col.free == 0) = true then Circuits.getStart s rest
          else
            match randomChoice ((List.range col.rows.length).filter fun i =>
                col.rows.get? i == some 0) rr with
            | some r => some (cr % s.length, r)
            | none => Circuits.getStart s rest) = some (cx, cy) := h
      by_cases hfree0 : (col.free == 0) = true
      · rw [if_pos hfree0] at h'
        exact ih h'
      · rw [if_neg hfree0] at h'
        cases hrc : randomChoice
            ((List.range col.rows.length).filter fun i => col.rows.get? i == some 0) rr with
        | none =>
          rw [hrc] at h'
          exact ih h'
        | some rr' =>
          rw [hrc] at h'
          have hpair : cr % s.length = cx ∧ rr' = cy := by
            have hsome : some ((cr % s.length : Nat), rr') = some (cx, cy) := h'
            have := Option.some.inj hsome
            exact ⟨congrArg Prod.fst this, congrArg Prod.snd this⟩
          obtain ⟨hx1, hx2⟩ := hpair
          have hmem := randomChoice_mem hrc
          rw [List.mem_filter, List.mem_range] at hmem
          have hrow : col.rows.get? cy = some 0 := by
            rw [← hx2]
            exact beq_iff_eq.mp hmem.2
          unfold cellVal
          rw [if_pos ⟨Int.natCast_nonneg cx, Int.natCast_nonneg cy⟩]
          rw [Int.toNat_natCast, Int.toNat_natCast, ← hx1, hcol]
          exact hrow

theorem buildLoop_spec :
    ∀ (fuel : Nat) (rnd : Nat → Bool × Nat) (s : Scene) (pos dir : Int × Int)
      (r : Circuits.BuildOut),
      Circuits.buildLoop rnd s pos dir fuel = r →
      dir ∈ dirs →
      isFree s (pos.1 + dir.1) (pos.2 + dir.2) = true →
      (∀ a b, isFree r.scene a b = true → isFree s a b = true) ∧
      (∀ p ∈ r.coordsTail, isFree s p.1 p.2 = true) ∧
      (∀ p ∈ r.coordsTail, isFree r.scene p.1 p.2 = false) ∧
      (∀ d ∈ r.path, d ∈ dirs) ∧
      List.Chain' stepRel (pos :: r.coordsTail) ∧
      (pos :: r.coordsTail).getLast? = some r.finalPos ∧
      r.coordsTail.length = r.path.length ∧
      (SceneInv s → SceneInv r.scene) := by
  intro fuel
  induction fuel with
  | zero =>
    intro rnd s pos dir r hr hdir hfree
    simp only [Circuits.buildLoop] at hr
    subst hr
    refine ⟨fun a b h => h, by simp, by simp, by simp, ?_, rfl, rfl, fun h => h⟩
    exact List.chain'_singleton pos
  | succ fuel ih =>
    intro rnd s pos dir r hr hdir hfree
    simp only [Circuits.buildLoop] at hr
    by_cases hb : Circuits.isBlocked
        (Circuits.getDirection (Circuits.markUsed s (pos.1 + dir.1) (pos.2 + dir.2))
          (pos.1 + dir.1) (pos.2 + dir.2) (some dir) (rnd 0).1 (rnd 0).2) = true
    · rw [if_pos hb] at hr
      subst hr
      refine ⟨?_, ?_, ?_, ?_, ?_, ?_, ?_, ?_⟩
      · exact fun a b h => markUsed_mono h
      · intro p hp
        have hp' : p = (pos.1 + dir.1, pos.2 + dir.2) := by simpa using hp
        subst hp'
        exact hfree
      · intro p hp
        have hp' : p = (pos.1 + dir.1, pos.2 + dir.2) := by simpa using hp
        subst hp'
        exact markUsed_self hfree
      · intro d hd
        have hd' : d = dir := by simpa using hd
        subst hd'
        exact hdir
      · exact List.chain'_cons.mpr ⟨⟨dir, hdir, rfl⟩, List.chain'_singleton _⟩
      · rfl
      · rfl
      · exact fun h => markUsed_sceneInv hfree h
    · rw [if_neg hb] at hr
      -- facts about the freshly chosen direction
      have hspec := getDirection_spec (Circuits.markUsed s (pos.1 + dir.1) (pos.2 + dir.2))
        (pos.1 + dir.1) (pos.2 + dir.2) (some dir) (rnd 0).1 (rnd 0).2 _ rfl
        (Or.inr ⟨dir, rfl, hdir⟩)
      rcases hspec with ⟨hdmem, hdfree⟩ | ⟨heq, _⟩
      swap
      · exact absurd (by rw [heq]; rfl) hb
      obtain ⟨m1, m2, m3, m4, m5, m6, m7, m8⟩ :=
        ih (fun n => rnd (n + 1)) (Circuits.markUsed s (pos.1 + dir.1) (pos.2 + dir.2))
          ((pos.1 + dir.1, pos.2 + dir.2))
          (Circuits.getDirection (Circuits.markUsed s (pos.1 + dir.1) (pos.2 + dir.2))
            (pos.1 + dir.1) (pos.2 + dir.2) (some dir) (rnd 0).1 (rnd 0).2)
          _ rfl hdmem hdfree
      subst hr
      have hpersist : ∀ a b,
          isFree (Circuits.markUsed s (pos.1 + dir.1) (pos.2 + dir.2)) a b = false →
          isFree (Circuits.buildLoop (fun n => rnd (n + 1))
            (Circuits.markUsed s (pos.1 + dir.1) (pos.2 + dir.2))
            ((pos.1 + dir.1, pos.2 + dir.2))
            (Circuits.getDirection (Circuits.markUsed s (pos.1 + dir.1) (pos.2 + dir.2))
              (pos.1 + dir.1) (pos.2 + dir.2) (some dir) (rnd 0).1 (rnd 0).2) fuel).scene
            a b = false := by
        intro a b hab
        cases hv : isFree (Circuits.buildLoop (fun n => rnd (n + 1))
            (Circuits.markUsed s (pos.1 + dir.1) (pos.2 + dir.2))
            ((pos.1 + dir.1, pos.2 + dir.2))
            (Circuits.getDirection (Circuits.markUsed s (pos.1 + dir.1) (pos.2 + dir.2))
              (pos.1 + dir.1) (pos.2 + dir.2) (some dir) (rnd 0).1 (rnd 0).2) fuel).scene a b
        · rfl
        · rw [m1 a b hv] at hab
          cases hab
      refine ⟨?_, ?_, ?_, ?_, ?_, ?_, ?_, ?_⟩
      · exact fun a b h => markUsed_mono (m1 a b h)
      · intro p hp
        rcases List.mem_cons.mp hp with hp' | hp'
        · subst hp'
          exact hfree
        · exact markUsed_mono (m2 p hp')
      · intro p hp
        rcases List.mem_cons.mp hp with hp' | hp'
        · subst hp'
          exact hpersist _ _ (markUsed_self hfree)
        · exact m3 p hp'
      · intro d hd
        rcases List.mem_cons.mp hd with hd' | hd'
        · subst hd'
          exact hdir
        · exact m4 d hd'
      · exact List.chain'_cons.mpr ⟨⟨dir, hdir, rfl⟩, m5⟩
      · rw [show ((pos :: (pos.1 + dir.1, pos.2 + dir.2) ::
            (Circuits.buildLoop (fun n => rnd (n + 1))
              (Circuits.markUsed s (pos.1 + dir.1) (pos.2 + dir.2))
              ((pos.1 + dir.1, pos.2 + dir.2))
              (Circuits.getDirection (Circuits.markUsed s (pos.1 + dir.1) (pos.2 + dir.2))
                (pos.1 + dir.1) (pos.2 + dir.2) (some dir) (rnd 0).1 (rnd 0).2)
              fuel).coordsTail).getLast?) =
            (((pos.1 + dir.1, pos.2 + dir.2) ::
            (Circuits.buildLoop (fun n => rnd (n + 1))
              (Circuits.markUsed s (pos.1 + dir.1) (pos.2 + dir.2))
              ((pos.1 + dir.1, pos.2 + dir.2))
              (Circuits.getDirection (Circuits.markUsed s (pos.1 + dir.1) (pos.2 + dir.2))
                (pos.1 + dir.1) (pos.2 + dir.2) (some dir) (rnd 0).1 (rnd 0).2)
              fuel).coordsTail).getLast?) from List.getLast?_cons_cons]
        exact m6
      · simpa using m7
      · exact fun h => m8 (markUsed_sceneInv hfree h)

theorem buildLoop_path_length :
    ∀ (fuel : Nat) (rnd : Nat → Bool × Nat) (s : Scene) (pos dir : Int × Int),
      (Circuits.buildLoop rnd s pos dir fuel).path.length ≤ fuel := by
  intro fuel
  induction fuel with
  | zero => intro rnd s pos dir; simp [Circuits.buildLoop]
  | succ fuel ih =>
    intro rnd s pos dir
    simp only [Circuits.buildLoop]
    split
    · simp
    · simpa using ih (fun n => rnd (n + 1)) _ _ _

theorem buildCircuit_accept {cfg : Cfg} {s : Scene} {start dir : Int × Int}
    {lenRand : Nat} {rnd : Nat → Bool × Nat}
    (h : cfg.minLength ≤
      (Circuits.buildLoop rnd s start dir (cfg.minLength + lenRand)).path.length) :
    Circuits.buildCircuit cfg s start dir lenRand rnd =
      ((Circuits.buildLoop rnd s start dir (cfg.minLength + lenRand)).scene,
        some ⟨start, cfg.size,
          (Circuits.buildLoop rnd s start dir (cfg.minLength + lenRand)).path,
          some (Circuits.buildLoop rnd s start dir (cfg.minLength + lenRand)).finalPos,
          start :: (Circuits.buildLoop rnd s start dir (cfg.minLength + lenRand)).coordsTail,
          (Circuits.buildLoop rnd s start dir (cfg.minLength + lenRand)).path.length *
            cfg.size⟩) := by
  simp only [Circuits.buildCircuit]
  rw [if_pos h]

theorem buildCircuit_reject {cfg : Cfg} {s : Scene} {start dir : Int × Int}
    {lenRand : Nat} {rnd : Nat → Bool × Nat}
    (h : ¬ cfg.minLength ≤
      (Circuits.buildLoop rnd s start dir (cfg.minLength + lenRand)).path.length) :
    Circuits.buildCircuit cfg s start dir lenRand rnd =
      ((Circuits.buildLoop rnd s start dir (cfg.minLength + lenRand)).scene, none) := by
  simp only [Circuits.buildCircuit]
  rw [if_neg h]

theorem populate_cons_none {cfg : Cfg} {a : Circuits.AttemptRand}
    {rest : List Circuits.AttemptRand} {s : Scene} {acc : List Circuit}
    (hst : Circuits.getStart s a.starts = none) :
    Circuits.populate cfg (a :: rest) s acc = (s, acc) := by
  simp only [Circuits.populate, hst]

theorem populate_cons_blocked {cfg : Cfg} {a : Circuits.AttemptRand}
    {rest : List Circuits.AttemptRand} {s : Scene} {acc : List Circuit} {cx cy : Nat}
    (hst : Circuits.getStart s a.starts = some (cx, cy))
    (hb : Circuits.isBlocked
      (Circuits.getDirection s (cx : Int) (cy : Int) none a.dcoin a.dpick) = true) :
    Circuits.populate cfg (a :: rest) s acc = Circuits.populate cfg rest s acc := by
  simp only [Circuits.populate, hst, hb, if_true]

theorem populate_cons_some {cfg : Cfg} {a : Circuits.AttemptRand}
    {rest : List Circuits.AttemptRand} {s : Scene} {acc : List Circuit} {cx cy : Nat}
    {s2 : Scene} {c : Circuit}
    (hst : Circuits.getStart s a.starts = some (cx, cy))
    (hb : Circuits.isBlocked
      (Circuits.getDirection s (cx : Int) (cy : Int) none a.dcoin a.dpick) = false)
    (hbc : Circuits.buildCircuit cfg (Circuits.markUsed s (cx : Int) (cy : Int))
      ((cx : Int), (cy : Int)) (Circuits.getDirection s (cx : Int) (cy : Int) none a.dcoin a.dpick)
      a.lenRand a.steps = (s2, some c)) :
    Circuits.populate cfg (a :: rest) s acc = Circuits.populate cfg rest s2 (acc ++ [c]) := by
  simp only [Circuits.populate, hst, hb, Bool.false_eq_true, if_false, hbc]

theorem populate_cons_reject {cfg : Cfg} {a : Circuits.AttemptRand}
    {rest : List Circuits.AttemptRand} {s : Scene} {acc : List Circuit} {cx cy : Nat}
    {s2 : Scene}
    (hst : Circuits.getStart s a.starts = some (cx, cy))
    (hb : Circuits.isBlocked
      (Circuits.getDirection s (cx : Int) (cy : Int) none a.dcoin a.dpick) = false)
    (hbc : Circuits.buildCircuit cfg (Circuits.markUsed s (cx : Int) (cy : Int))
      ((cx : Int), (cy : Int)) (Circuits.getDirection s (cx : Int) (cy : Int) none a.dcoin a.dpick)
      a.lenRand a.steps = (s2, none)) :
    Circuits.populate cfg (a :: rest) s acc = Circuits.populate cfg rest s2 acc := by
  simp only [Circuits.populate, hst, hb, Bool.false_eq_true, if_false, hbc]

theorem step_ne {d : Int × Int} (hd : d ∈ dirs) (x y : Int) :
    ((x + d.1, y + d.2) : Int × Int) ≠ (x, y) := by
  simp only [dirs, List.mem_cons, List.not_mem_nil, or_false] at hd
  rcases hd with rfl | rfl | rfl | rfl <;> simp [Prod.ext_iff]

theorem isFree_markUsed_of_ne {s : Scene} {x y a b : Int} (hx : 0 ≤ x) (hy : 0 ≤ y)
    (hne : ((a, b) : Int × Int) ≠ (x, y)) :
    isFree (Circuits.markUsed s x y) a b = isFree s a b := by
  have hor : a ≠ x ∨ b ≠ y := by
    by_contra hc
    push_neg at hc
    exact hne (by rw [hc.1, hc.2])
  rw [isFree, isFree, cellVal_markUsed_other hx hy hor]

theorem populate_inv (cfg : Cfg) :
    ∀ (atts : List Circuits.AttemptRand) (s : Scene) (acc : List Circuit),
      SceneInv s → (∀ c ∈ acc, circMarked s c) → acc.Pairwise coordsDisjoint →
      SceneInv (Circuits.populate cfg atts s acc).1 ∧
      (∀ c ∈ (Circuits.populate cfg atts s acc).2,
        circMarked (Circuits.populate cfg atts s acc).1 c) ∧
      (Circuits.populate cfg atts s acc).2.Pairwise coordsDisjoint := by
  intro atts
  induction atts with
  | nil =>
    intro s acc h1 h2 h3
    exact ⟨h1, h2, h3⟩
  | cons a rest ih =>
    intro s acc h1 h2 h3
    cases hst : Circuits.getStart s a.starts with
    | none =>
      rw [populate_cons_none hst]
      exact ⟨h1, h2, h3⟩
    | some st =>
      obtain ⟨cx, cy⟩ := st
      have hcell := getStart_spec hst
      have hfree : isFree s (cx : Int) (cy : Int) = true := isFree_iff.mpr hcell
      by_cases hb : Circuits.isBlocked
          (Circuits.getDirection s (cx : Int) (cy : Int) none a.dcoin a.dpick) = true
      · rw [populate_cons_blocked hst hb]
        exact ih s acc h1 h2 h3
      · have hbfalse : Circuits.isBlocked
            (Circuits.getDirection s (cx : Int) (cy : Int) none a.dcoin a.dpick) = false := by
          cases hv : Circuits.isBlocked
              (Circuits.getDirection s (cx : Int) (cy : Int) none a.dcoin a.dpick)
          · rfl
          · exact absurd hv hb
        have hspec := getDirection_spec s (cx : Int) (cy : Int) none a.dcoin a.dpick _ rfl
          (Or.inl rfl)
        rcases hspec with ⟨hdmem, hdfree⟩ | ⟨heq, _⟩
        swap
        · exact absurd (by rw [heq]; rfl) hb
        have hfree1 : isFree (Circuits.markUsed s (cx : Int) (cy : Int))
            ((cx : Int) + (Circuits.getDirection s (cx : Int) (cy : Int) none a.dcoin a.dpick).1)
            ((cy : Int) + (Circuits.getDirection s (cx : Int) (cy : Int) none a.dcoin a.dpick).2) =
            true := by
          rw [isFree_markUsed_of_ne (Int.natCast_nonneg cx) (Int.natCast_nonneg cy)
            (step_ne hdmem _ _)]
          exact hdfree
        have hsi1 : SceneInv (Circuits.markUsed s (cx : Int) (cy : Int)) :=
          markUsed_sceneInv hfree h1
        obtain ⟨m1, m2, m3, m4, m5, m6, m7, m8⟩ :=
          buildLoop_spec (cfg.minLength + a.lenRand) a.steps
            (Circuits.markUsed s (cx : Int) (cy : Int)) ((cx : Int), (cy : Int))
            (Circuits.getDirection s (cx : Int) (cy : Int) none a.dcoin a.dpick) _ rfl
            hdmem hfree1
        have hpersist : ∀ u v,
            isFree (Circuits.markUsed s (cx : Int) (cy : Int)) u v = false →
            isFree (Circuits.buildLoop a.steps (Circuits.markUsed s (cx : Int) (cy : Int))
              ((cx : Int), (cy : Int))
              (Circuits.getDirection s (cx : Int) (cy : Int) none a.dcoin a.dpick)
              (cfg.minLength + a.lenRand)).scene u v = false := by
          intro u v huv
          cases hv : isFree (Circuits.buildLoop a.steps
              (Circuits.markUsed s (cx : Int) (cy : Int)) ((cx : Int), (cy : Int))
              (Circuits.getDirection s (cx : Int) (cy : Int) none a.dcoin a.dpick)
              (cfg.minLength + a.lenRand)).scene u v
          · rfl
          · rw [m1 u v hv] at huv
            cases huv
        have hstartm : isFree (Circuits.buildLoop a.steps
            (Circuits.markUsed s (cx : Int) (cy : Int)) ((cx : Int), (cy : Int))
            (Circuits.getDirection s (cx : Int) (cy : Int) none a.dcoin a.dpick)
            (cfg.minLength + a.lenRand)).scene (cx : Int) (cy : Int) = false :=
          hpersist _ _ (markUsed_self hfree)
        have holdmark : ∀ c ∈ acc, circMarked (Circuits.buildLoop a.steps
            (Circuits.markUsed s (cx : Int) (cy : Int)) ((cx : Int), (cy : Int))
            (Circuits.getDirection s (cx : Int) (cy : Int) none a.dcoin a.dpick)
            (cfg.minLength + a.lenRand)).scene c := by
          intro c hc p hp
          exact hpersist _ _ (markUsed_not_free (h2 c hc p hp))
        by_cases hacc : cfg.minLength ≤ (Circuits.buildLoop a.steps
            (Circuits.markUsed s (cx : Int) (cy : Int)) ((cx : Int), (cy : Int))
            (Circuits.getDirection s (cx : Int) (cy : Int) none a.dcoin a.dpick)
            (cfg.minLength + a.lenRand)).path.length
        · rw [populate_cons_some hst hbfalse (buildCircuit_accept hacc)]
          apply ih
          · exact m8 hsi1
          · intro c hc
            rcases List.mem_append.mp hc with hc' | hc'
            · exact holdmark c hc'
            · obtain rfl := List.mem_singleton.mp hc'
              intro p hp
              rcases List.mem_cons.mp hp with hp' | hp'
              · rw [hp']
                exact hstartm
              · exact m3 p hp'
          · rw [List.pairwise_append]
            refine ⟨h3, by simp, ?_⟩
            intro c hc c' hc'
            obtain rfl := List.mem_singleton.mp hc'
            intro p hp hpnew
            have hmarked := h2 c hc p hp
            rcases List.mem_cons.mp hpnew with hp' | hp'
            · rw [hp'] at hmarked
              rw [hfree] at hmarked
              cases hmarked
            · have hfree_s1 := m2 p hp'
              have hfree_s : isFree s p.1 p.2 = true := markUsed_mono hfree_s1
              rw [hfree_s] at hmarked
              cases hmarked
        · rw [populate_cons_reject hst hbfalse (buildCircuit_reject hacc)]
          exact ih _ _ (m8 hsi1) holdmark h3

theorem advance_range {p : Particle}
    (hlo : 0 ≤ p.progress) (hhi : p.progress < (p.circuit.length : ℚ)) :
    0 ≤ (p.advance).2 ∧ (p.advance).2 < (p.circuit.length : ℚ) := by
  simp only [Particle.advance]
  by_cases hc : p.progress + p.velocity ≤ 0 ∨
      (p.circuit.length : ℚ) ≤ p.progress + p.velocity
  · rw [if_pos hc]
    show 0 ≤ p.progress + p.velocity + -p.velocity ∧
      p.progress + p.velocity + -p.velocity < (p.circuit.length : ℚ)
    have hcancel : p.progress + p.velocity + -p.velocity = p.progress := by ring
    rw [hcancel]
    exact ⟨hlo, hhi⟩
  · rw [if_neg hc]
    push_neg at hc
    exact ⟨le_of_lt hc.1, hc.2⟩

theorem floor_idx_valid {prog : ℚ} {size steps : Nat}
    (hsize : 0 < size) (hlo : 0 ≤ prog) (hhi : prog < ((steps * size : Nat) : ℚ)) :
    0 ≤ ⌊prog / (size : ℚ)⌋ ∧ (⌊prog / (size : ℚ)⌋).toNat < steps := by
  have hszQ : (0 : ℚ) < (size : ℚ) := by exact_mod_cast hsize
  have h0 : 0 ≤ ⌊prog / (size : ℚ)⌋ :=
    Int.floor_nonneg.mpr (div_nonneg hlo (le_of_lt hszQ))
  have hlt : ⌊prog / (size : ℚ)⌋ < (steps : ℤ) := by
    rw [Int.floor_lt, div_lt_iff hszQ]
    push_cast at hhi ⊢
    exact hhi
  exact ⟨h0, by omega⟩

theorem update_formula (p : Particle) (d cc : Int × Int)
    (h0 : 0 ≤ ⌊(p.advance).2 / (p.circuit.size : ℚ)⌋)
    (hd : p.circuit.path.get? (⌊(p.advance).2 / (p.circuit.size : ℚ)⌋).toNat = some d)
    (hc : p.circuit.coords.get? (⌊(p.advance).2 / (p.circuit.size : ℚ)⌋).toNat = some cc) :
    Particle.update p = some { p with
      velocity := (p.advance).1
      progress := (p.advance).2
      x := (getCellCenter cc.1 cc.2 (p.circuit.size : ℚ)).1 +
        (d.1 : ℚ) * jsMod (p.advance).2 (p.circuit.size : ℚ)
      y := (getCellCenter cc.1 cc.2 (p.circuit.size : ℚ)).2 +
        (d.2 : ℚ) * jsMod (p.advance).2 (p.circuit.size : ℚ) } := by
  simp only [Particle.update]
  rw [if_neg (by omega), hd, hc]
  rfl

theorem update_step {p : Particle}
    (hsize : 0 < p.circuit.size)
    (hcoords : p.circuit.coords.length = p.circuit.path.length + 1)
    (hlen : p.circuit.length = p.circuit.path.length * p.circuit.size)
    (hlo : 0 ≤ p.progress) (hhi : p.progress < (p.circuit.length : ℚ)) :
    ∃ q, Particle.update p = some q ∧ q.circuit = p.circuit ∧
      0 ≤ q.progress ∧ q.progress < (p.circuit.length : ℚ) := by
  obtain ⟨ha0, ha1⟩ := advance_range hlo hhi
  have ha1' : (p.advance).2 < ((p.circuit.path.length * p.circuit.size : Nat) : ℚ) := by
    rw [← hlen]
    exact ha1
  obtain ⟨hidx0, hidxlt⟩ := floor_idx_valid hsize ha0 ha1'
  have hclt : (⌊(p.advance).2 / (p.circuit.size : ℚ)⌋).toNat < p.circuit.coords.length := by
    omega
  have hd := List.get?_eq_get hidxlt
  have hc := List.get?_eq_get hclt
  exact ⟨_, update_formula p _ _ hidx0 hd hc, rfl, ha0, ha1⟩

theorem iterUpdate_inv : ∀ (n : Nat) (p : Particle),
    0 < p.circuit.size → p.circuit.coords.length = p.circuit.path.length + 1 →
    p.circuit.length = p.circuit.path.length * p.circuit.size →
    0 ≤ p.progress → p.progress < (p.circuit.length : ℚ) →
    ∃ q, iterUpdate n p = some q ∧ q.circuit = p.circuit ∧
      0 ≤ q.progress ∧ q.progress < (p.circuit.length : ℚ) := by
  intro n
  induction n with
  | zero =>
    intro p h1 h2 h3 h4 h5
    exact ⟨p, rfl, rfl, h4, h5⟩
  | succ n ihn =>
    intro p h1 h2 h3 h4 h5
    obtain ⟨q, hq, hqc, hq0, hq1⟩ := update_step h1 h2 h3 h4 h5
    obtain ⟨q2, hq2, hq2c, hq20, hq21⟩ := ihn q (by rw [hqc]; exact h1)
      (by rw [hqc]; exact h2) (by rw [hqc]; exact h3) hq0 (by rw [hqc]; exact hq1)
    refine ⟨q2, ?_, by rw [hq2c, hqc], hq20, by rw [← hqc]; exact hq21⟩
    simp only [iterUpdate]
    rw [hq]
    exact hq2

theorem pEx_advance : pEx.advance = (3 / 10, 53 / 10) := by
  simp only [Particle.advance]
  rw [if_neg]
  · rw [Prod.mk.injEq]
    constructor
    · rfl
    · show (5 : ℚ) + 3 / 10 = 53 / 10
      norm_num
  · rw [not_or]
    constructor
    · show ¬ (5 : ℚ) + 3 / 10 ≤ 0
      norm_num
    · show ¬ ((30 : Nat) : ℚ) ≤ 5 + 3 / 10
      norm_num

theorem pEx_floor : ⌊(pEx.advance).2 / (pEx.circuit.size : ℚ)⌋ = 0 := by
  rw [pEx_advance]
  show ⌊(53 / 10 : ℚ) / ((10 : Nat) : ℚ)⌋ = 0
  rw [Int.floor_eq_zero_iff]
  constructor <;> norm_num

/-! # Claim theorems -/

/-- C1: in one generation pass over a fresh scene no grid cell belongs to two
distinct accepted circuits: whatever the randomness, the coordinate
sequences of the circuits in the final collection are pairwise disjoint,
because every cell stepped into (or taken as a start) is marked occupied at
that moment and getDirection never targets an occupied cell. -/
theorem populate_coords_pairwise_disjoint (cfg : Cfg) (cols rows : Nat)
    (atts : List Circuits.AttemptRand) :
    (Circuits.populate cfg atts (initScene cols rows) []).2.Pairwise coordsDisjoint := by
  refine (populate_inv cfg atts (initScene cols rows) [] ?_ ?_ ?_).2.2
  · intro col hcol
    have hc := List.eq_of_mem_replicate hcol
    subst hc
    show (rows : Int) = (countZeros (List.replicate rows 0) : Int)
    rw [countZeros_replicate]
  · intro c hc
    cases hc
  · exact List.Pairwise.nil

/-- C2: a circuit accepted by buildCircuit has at least minLength and
strictly fewer than maxLength steps whenever the target sample lies in
[minLength, maxLength); and a walk that reaches at least minLength steps
(in particular exactly minLength) is accepted. -/
theorem buildCircuit_step_bounds :
    (∀ (cfg : Cfg) (s : Scene) (start dir : Int × Int) (lenRand : Nat)
      (rnd : Nat → Bool × Nat) (s2 : Scene) (c : Circuit),
      lenRand < cfg.maxLength - cfg.minLength →
      Circuits.buildCircuit cfg s start dir lenRand rnd = (s2, some c) →
      cfg.minLength ≤ c.path.length ∧ c.path.length < cfg.maxLength) ∧
    (∀ (cfg : Cfg) (s : Scene) (start dir : Int × Int) (lenRand : Nat)
      (rnd : Nat → Bool × Nat),
      cfg.minLength ≤
        (Circuits.buildLoop rnd s start dir (cfg.minLength + lenRand)).path.length →
      ∃ c, Circuits.buildCircuit cfg s start dir lenRand rnd =
        ((Circuits.buildLoop rnd s start dir (cfg.minLength + lenRand)).scene, some c) ∧
        c.path = (Circuits.buildLoop rnd s start dir (cfg.minLength + lenRand)).path) := by
  constructor
  · intro cfg s start dir lenRand rnd s2 c hlt h
    by_cases hacc : cfg.minLength ≤
        (Circuits.buildLoop rnd s start dir (cfg.minLength + lenRand)).path.length
    · rw [buildCircuit_accept hacc] at h
      have hc := Option.some.inj (congrArg Prod.snd h)
      have hloop := buildLoop_path_length (cfg.minLength + lenRand) rnd s start dir
      constructor
      · rw [← hc]
        exact hacc
      · rw [← hc]
        show (Circuits.buildLoop rnd s start dir (cfg.minLength + lenRand)).path.length <
          cfg.maxLength
        omega
    · rw [buildCircuit_reject hacc] at h
      exact absurd (congrArg Prod.snd h) (by simp)
  · intro cfg s start dir lenRand rnd hacc
    exact ⟨_, buildCircuit_accept hacc, rfl⟩

/-- Witness for C2: a run accepted with 2 steps inside [1, 3), and an
exactly-minimum run (2 steps with minLength 2) that is accepted. -/
theorem buildCircuit_step_bounds_witness :
    (cfgEx.minLength ≤ cW2.path.length ∧ cW2.path.length < cfgEx.maxLength) ∧
    ∃ c, Circuits.buildCircuit cfgB s9 (0, 0) (0, 1) 1 rndT =
      ((Circuits.buildLoop rndT s9 (0, 0) (0, 1) (cfgB.minLength + 1)).scene, some c) ∧
      c.path = (Circuits.buildLoop rndT s9 (0, 0) (0, 1) (cfgB.minLength + 1)).path := by
  constructor
  · exact buildCircuit_step_bounds.1 cfgEx sW (0, 0) (0, 1) 1 rndT sWout cW2
      (by decide) (by decide)
  · exact buildCircuit_step_bounds.2 cfgB s9 (0, 0) (0, 1) 1 rndT (by decide)

/-- C3: a particle whose progress starts in [0, pathLength) on a well-formed
circuit, with velocity magnitude in the configured speed range, keeps after
any number of update ticks a progress in [0, pathLength), so
floor(progress / cellSize) is always a valid index into the circuit's
direction array and no lookup faults. -/
theorem particle_index_safe (p : Particle) (n : Nat)
    (hsize : 0 < p.circuit.size)
    (hcoords : p.circuit.coords.length = p.circuit.path.length + 1)
    (hlen : p.circuit.length = p.circuit.path.length * p.circuit.size)
    (hv1 : PARTICLE_SPEED_MIN ≤ |p.velocity|)
    (hv2 : |p.velocity| ≤ PARTICLE_SPEED_MAX)
    (hlo : 0 ≤ p.progress) (hhi : p.progress < (p.circuit.length : ℚ)) :
    ∃ q, iterUpdate n p = some q ∧ q.circuit = p.circuit ∧
      0 ≤ q.progress ∧ q.progress < (p.circuit.length : ℚ) ∧
      0 ≤ ⌊q.progress / (p.circuit.size : ℚ)⌋ ∧
      (⌊q.progress / (p.circuit.size : ℚ)⌋).toNat < p.circuit.path.length := by
  obtain ⟨q, hq, hqc, h0, h1⟩ := iterUpdate_inv n p hsize hcoords hlen hlo hhi
  have h1' : q.progress < ((p.circuit.path.length * p.circuit.size : Nat) : ℚ) := by
    rw [← hlen]
    exact h1
  obtain ⟨hi0, hi1⟩ := floor_idx_valid hsize h0 h1'
  exact ⟨q, hq, hqc, h0, h1, hi0, hi1⟩

/-- Witness for C3 at a concrete particle and four ticks. -/
theorem particle_index_safe_witness :
    ∃ q, iterUpdate 4 pEx = some q ∧ q.circuit = pEx.circuit ∧
      0 ≤ q.progress ∧ q.progress < (pEx.circuit.length : ℚ) ∧
      0 ≤ ⌊q.progress / (pEx.circuit.size : ℚ)⌋ ∧
      (⌊q.progress / (pEx.circuit.size : ℚ)⌋).toNat < pEx.circuit.path.length :=
  particle_index_safe pEx 4 (by decide) (by decide) (by decide)
    (by
      show PARTICLE_SPEED_MIN ≤ |pEx.velocity|
      rw [show pEx.velocity = 3 / 10 from rfl,
        abs_of_pos (by norm_num : (0 : ℚ) < 3 / 10)]
      norm_num [PARTICLE_SPEED_MIN])
    (by
      show |pEx.velocity| ≤ PARTICLE_SPEED_MAX
      rw [show pEx.velocity = 3 / 10 from rfl,
        abs_of_pos (by norm_num : (0 : ℚ) < 3 / 10)]
      norm_num [PARTICLE_SPEED_MAX])
    (by show (0 : ℚ) ≤ 5; norm_num)
    (by show (5 : ℚ) < ((30 : Nat) : ℚ); norm_num)

/-- C4: getDirection returns either a unit direction whose target cell is
inside the grid and unoccupied, or the zero-vector blocked sentinel exactly
when no orthogonal neighbour is free; a cell outside the grid bounds reads
as occupied, so it is never a target. -/
theorem getDirection_safe (s : Scene) (x y : Int) (prev : Option (Int × Int))
    (coin : Bool) (pick : Nat)
    (hprev : prev = none ∨ ∃ p, prev = some p ∧ p ∈ dirs) :
    (∀ r, Circuits.getDirection s x y prev coin pick = r →
      (r ∈ dirs ∧ isFree s (x + r.1) (y + r.2) = true) ∨
      (r = (0, 0) ∧ ∀ d ∈ dirs, isFree s (x + d.1) (y + d.2) = false)) ∧
    (∀ a b : Int, cellVal s a b = none → isFree s a b = false) := by
  constructor
  · intro r hr
    exact getDirection_spec s x y prev coin pick r hr hprev
  · intro a b h
    rw [isFree, h]
    rfl

/-- Witness for C4: a concrete call returns a unit direction, and an
out-of-bounds cell reads as not free. -/
theorem getDirection_safe_witness :
    Circuits.getDirection sceneEx 1 0 none true 0 ∈ dirs ∧
    isFree sceneEx (-1) 0 = false := by
  have h := getDirection_safe sceneEx 1 0 none true 0 (Or.inl rfl)
  refine ⟨?_, h.2 (-1) 0 (by decide)⟩
  rcases h.1 _ rfl with h' | h'
  · exact h'.1
  · exact absurd h'.1 (by decide)

/-- C5: when the advanced progress leaves [0, pathLength], the bounce branch
negates the velocity and adds the new opposite-sign velocity once more in
the same tick, with no further clamping: the advance-and-bounce stage then
returns exactly the pre-advance progress with the flipped velocity. -/
theorem particle_bounce_reflects (p : Particle)
    (h : p.progress + p.velocity ≤ 0 ∨
      (p.circuit.length : ℚ) ≤ p.progress + p.velocity) :
    p.advance = (-p.velocity, p.progress) := by
  simp only [Particle.advance]
  rw [if_pos h]
  have hcancel : p.progress + p.velocity + -p.velocity = p.progress := by ring
  rw [hcancel]

/-- Witness for C5: a particle at 29.9 with velocity 0.3 on a 30-pixel path
bounces to velocity -0.3 keeping progress 29.9. -/
theorem particle_bounce_reflects_witness :
    pBounce.advance = (-(3 / 10), 299 / 10) :=
  particle_bounce_reflects pBounce (Or.inr (by norm_num [pBounce, cEx]))

/-- C6: update resolves the position from segmentIndex =
floor(progress / cellSize) and segmentOffset = progress % cellSize as the
centre of the segment's origin cell plus the unit direction scaled by the
offset; the JavaScript remainder agrees with progress - cellSize *
floor(progress / cellSize) on the reachable range; and buildCircuit stores
pathLength = steps * cellSize. -/
theorem particle_position_resolution :
    (∀ (p : Particle) (d cc : Int × Int),
      0 ≤ ⌊(p.advance).2 / (p.circuit.size : ℚ)⌋ →
      p.circuit.path.get? (⌊(p.advance).2 / (p.circuit.size : ℚ)⌋).toNat = some d →
      p.circuit.coords.get? (⌊(p.advance).2 / (p.circuit.size : ℚ)⌋).toNat = some cc →
      Particle.update p = some { p with
        velocity := (p.advance).1
        progress := (p.advance).2
        x := (getCellCenter cc.1 cc.2 (p.circuit.size : ℚ)).1 +
          (d.1 : ℚ) * jsMod (p.advance).2 (p.circuit.size : ℚ)
        y := (getCellCenter cc.1 cc.2 (p.circuit.size : ℚ)).2 +
          (d.2 : ℚ) * jsMod (p.advance).2 (p.circuit.size : ℚ) }) ∧
    (∀ a b : ℚ, 0 ≤ a → 0 < b → jsMod a b = a - b * (⌊a / b⌋ : ℚ)) ∧
    (∀ (cfg : Cfg) (s : Scene) (start dir : Int × Int) (lenRand : Nat)
      (rnd : Nat → Bool × Nat) (s2 : Scene) (c : Circuit),
      Circuits.buildCircuit cfg s start dir lenRand rnd = (s2, some c) →
      c.length = c.path.length * cfg.size) := by
  refine ⟨update_formula, ?_, ?_⟩
  · intro a b ha hb
    unfold jsMod truncQ
    rw [if_pos (div_nonneg ha (le_of_lt hb))]
  · intro cfg s start dir lenRand rnd s2 c h
    by_cases hacc : cfg.minLength ≤
        (Circuits.buildLoop rnd s start dir (cfg.minLength + lenRand)).path.length
    · rw [buildCircuit_accept hacc] at h
      have hc := Option.some.inj (congrArg Prod.snd h)
      rw [← hc]
    · rw [buildCircuit_reject hacc] at h
      exact absurd (congrArg Prod.snd h) (by simp)

/-- Witness for C6: one concrete resolved tick, the remainder identity at
53/10 over 10, and the stored length of a concretely built circuit. -/
theorem particle_position_resolution_witness :
    Particle.update pEx = some { pEx with
      velocity := (pEx.advance).1
      progress := (pEx.advance).2
      x := (getCellCenter 0 0 (pEx.circuit.size : ℚ)).1 +
        ((0 : Int) : ℚ) * jsMod (pEx.advance).2 (pEx.circuit.size : ℚ)
      y := (getCellCenter 0 0 (pEx.circuit.size : ℚ)).2 +
        ((1 : Int) : ℚ) * jsMod (pEx.advance).2 (pEx.circuit.size : ℚ) } ∧
    jsMod (53 / 10) 10 = 53 / 10 - 10 * ((⌊((53 : ℚ) / 10) / 10⌋ : Int) : ℚ) ∧
    cW2.length = cW2.path.length * cfgEx.size := by
  refine ⟨?_, ?_, ?_⟩
  · exact particle_position_resolution.1 pEx ((0 : Int), (1 : Int)) ((0 : Int), (0 : Int))
      (by rw [pEx_floor]) (by rw [pEx_floor]; decide) (by rw [pEx_floor]; decide)
  · exact particle_position_resolution.2.1 (53 / 10) 10 (by norm_num) (by norm_num)
  · exact particle_position_resolution.2.2 cfgEx sW (0, 0) (0, 1) 1 rndT sWout cW2
      (by decide)

/-- C7: an accepted circuit's coordinate sequence starts at the start cell,
every later coordinate is the previous one plus one of the four unit
directions, and the stored end cell is the last coordinate. -/
theorem circuit_coords_connected (cfg : Cfg) (s : Scene) (start dir : Int × Int)
    (lenRand : Nat) (rnd : Nat → Bool × Nat) (s2 : Scene) (c : Circuit)
    (hdir : dir ∈ dirs)
    (hfree : isFree s (start.1 + dir.1) (start.2 + dir.2) = true)
    (h : Circuits.buildCircuit cfg s start dir lenRand rnd = (s2, some c)) :
    c.coords.head? = some c.start ∧
    List.Chain' stepRel c.coords ∧
    c.endCell = c.coords.getLast? := by
  by_cases hacc : cfg.minLength ≤
      (Circuits.buildLoop rnd s start dir (cfg.minLength + lenRand)).path.length
  swap
  · rw [buildCircuit_reject hacc] at h
    exact absurd (congrArg Prod.snd h) (by simp)
  rw [buildCircuit_accept hacc] at h
  have hc := Option.some.inj (congrArg Prod.snd h)
  obtain ⟨m1, m2, m3, m4, m5, m6, m7, m8⟩ :=
    buildLoop_spec (cfg.minLength + lenRand) rnd s start dir _ rfl hdir hfree
  refine ⟨?_, ?_, ?_⟩
  · rw [← hc]
    rfl
  · rw [← hc]
    exact m5
  · rw [← hc]
    exact m6.symm

/-- Witness for C7 on the concretely built two-step circuit. -/
theorem circuit_coords_connected_witness :
    cW2.coords.head? = some cW2.start ∧
    List.Chain' stepRel cW2.coords ∧
    cW2.endCell = cW2.coords.getLast? :=
  circuit_coords_connected cfgEx sW (0, 0) (0, 1) 1 rndT sWout cW2
    (by decide) (by decide) (by decide)

/-- C8 fails on the code: source line 200 is if (not start) break, so a
single exhausted start pick terminates the whole generation pass.  With the
exhausted attempt first, populate returns the untouched scene and empty
collection even though the remaining attempt alone would have built a
circuit. -/
theorem populate_break_cex :
    Circuits.populate cfgEx [aBad, aGood] sceneEx [] = (sceneEx, []) ∧
    (Circuits.populate cfgEx [aGood] sceneEx []).2.length = 1 := by
  constructor
  · decide
  · decide

/-- C8 (amended): when a start-cell pick exhausts its tries, populate
terminates the whole generation pass, returning the scene and collection
unchanged; and every start whose initial direction is unblocked (the only
starts that are marked and built from) has at least one free neighbouring
direction. -/
theorem populate_start_exhausted_breaks :
    (∀ (cfg : Cfg) (a : Circuits.AttemptRand) (rest : List Circuits.AttemptRand)
      (s : Scene) (acc : List Circuit),
      Circuits.getStart s a.starts = none →
      Circuits.populate cfg (a :: rest) s acc = (s, acc)) ∧
    (∀ (s : Scene) (a : Circuits.AttemptRand) (cx cy : Nat),
      Circuits.getStart s a.starts = some (cx, cy) →
      Circuits.isBlocked
        (Circuits.getDirection s (cx : Int) (cy : Int) none a.dcoin a.dpick) = false →
      ∃ d ∈ dirs, isFree s ((cx : Int) + d.1) ((cy : Int) + d.2) = true) := by
  constructor
  · intro cfg a rest s acc hst
    exact populate_cons_none hst
  · intro s a cx cy hst hb
    have hspec := getDirection_spec s (cx : Int) (cy : Int) none a.dcoin a.dpick _ rfl
      (Or.inl rfl)
    rcases hspec with ⟨hdmem, hdfree⟩ | ⟨heq, _⟩
    · exact ⟨_, hdmem, hdfree⟩
    · rw [heq] at hb
      exact absurd hb (by decide)

/-- Witness for the amended C8: the exhausted attempt alone ends the pass at
once, and the successful start of aGood has a free neighbour. -/
theorem populate_start_exhausted_breaks_witness :
    Circuits.populate cfgEx [aBad] sceneEx [] = (sceneEx, []) ∧
    ∃ d ∈ dirs, isFree sceneEx (((1 : Nat) : Int) + d.1) (((0 : Nat) : Int) + d.2) = true := by
  refine ⟨populate_start_exhausted_breaks.1 cfgEx aBad [] sceneEx [] (by decide), ?_⟩
  exact populate_start_exhausted_breaks.2 sceneEx aGood 1 0 (by decide) (by decide)

/-- C9: when the stepping loop takes fewer than minLength steps the circuit
is rejected: buildCircuit returns none with the mutated scene, every cell
already occupied (including the start the caller marked) stays occupied,
every cell the loop marked stays marked, and populate pushes nothing for
that attempt while continuing from the mutated scene — rejection never rolls
back the occupancy grid. -/
theorem buildCircuit_reject_keeps_marks :
    (∀ (cfg : Cfg) (s : Scene) (start dir : Int × Int) (lenRand : Nat)
      (rnd : Nat → Bool × Nat),
      dir ∈ dirs →
      isFree s (start.1 + dir.1) (start.2 + dir.2) = true →
      (Circuits.buildLoop rnd s start dir (cfg.minLength + lenRand)).path.length <
        cfg.minLength →
      Circuits.buildCircuit cfg s start dir lenRand rnd =
        ((Circuits.buildLoop rnd s start dir (cfg.minLength + lenRand)).scene, none) ∧
      (∀ a b : Int, isFree s a b = false →
        isFree (Circuits.buildLoop rnd s start dir (cfg.minLength + lenRand)).scene a b =
          false) ∧
      (∀ p ∈ (Circuits.buildLoop rnd s start dir (cfg.minLength + lenRand)).coordsTail,
        isFree (Circuits.buildLoop rnd s start dir (cfg.minLength + lenRand)).scene
          p.1 p.2 = false)) ∧
    (∀ (cfg : Cfg) (a : Circuits.AttemptRand) (rest : List Circuits.AttemptRand)
      (s : Scene) (acc : List Circuit) (cx cy : Nat) (s2 : Scene),
      Circuits.getStart s a.starts = some (cx, cy) →
      Circuits.isBlocked
        (Circuits.getDirection s (cx : Int) (cy : Int) none a.dcoin a.dpick) = false →
      Circuits.buildCircuit cfg (Circuits.markUsed s (cx : Int) (cy : Int))
        ((cx : Int), (cy : Int))
        (Circuits.getDirection s (cx : Int) (cy : Int) none a.dcoin a.dpick)
        a.lenRand a.steps = (s2, none) →
      Circuits.populate cfg (a :: rest) s acc = Circuits.populate cfg rest s2 acc) := by
  constructor
  · intro cfg s start dir lenRand rnd hdir hfree hlt
    obtain ⟨m1, m2, m3, m4, m5, m6, m7, m8⟩ :=
      buildLoop_spec (cfg.minLength + lenRand) rnd s start dir _ rfl hdir hfree
    have hpersist : ∀ a b : Int, isFree s a b = false →
        isFree (Circuits.buildLoop rnd s start dir (cfg.minLength + lenRand)).scene a b =
          false := by
      intro u v huv
      cases hv : isFree (Circuits.buildLoop rnd s start dir (cfg.minLength + lenRand)).scene
          u v
      · rfl
      · rw [m1 u v hv] at huv
        cases huv
    exact ⟨buildCircuit_reject (by omega), hpersist, m3⟩
  · intro cfg a rest s acc cx cy s2 hst hb hbc
    exact populate_cons_reject hst hb hbc

/-- Witness for C9: the rejected run on the one-column grid keeps the start
and the walked cells marked, and the populate attempt continues with an
unchanged (empty) collection from the mutated scene. -/
theorem buildCircuit_reject_keeps_marks_witness :
    (Circuits.buildCircuit cfgC9 s9 (0, 0) (0, 1) 0 rndT =
      ((Circuits.buildLoop rndT s9 (0, 0) (0, 1) (cfgC9.minLength + 0)).scene, none) ∧
     isFree (Circuits.buildLoop rndT s9 (0, 0) (0, 1) (cfgC9.minLength + 0)).scene 0 0 =
       false ∧
     isFree (Circuits.buildLoop rndT s9 (0, 0) (0, 1) (cfgC9.minLength + 0)).scene 0 2 =
       false) ∧
    Circuits.populate cfgC9 [a9] (initScene 1 3) [] =
      Circuits.populate cfgC9 [] s9out [] := by
  constructor
  · obtain ⟨h1, h2, h3⟩ := buildCircuit_reject_keeps_marks.1 cfgC9 s9 (0, 0) (0, 1) 0 rndT
      (by decide) (by decide) (by decide)
    exact ⟨h1, h2 0 0 (by decide), h3 (0, 2) (by decide)⟩
  · exact buildCircuit_reject_keeps_marks.2 cfgC9 a9 [] (initScene 1 3) [] 0 0 s9out
      (by decide) (by decide) (by decide)

/-- C10: the per-column free counter always equals the number of free cells:
it holds for the fresh scene, is preserved through any whole generation pass
(no cell is ever marked twice), and a column with free = 0 really has no
free cell, so getStart's skip of such columns never skips a column that
still has a free cell. -/
theorem occupancy_free_count_inv :
    (∀ cols rows : Nat, SceneInv (initScene cols rows)) ∧
    (∀ (cfg : Cfg) (atts : List Circuits.AttemptRand) (cols rows : Nat),
      SceneInv (Circuits.populate cfg atts (initScene cols rows) []).1) ∧
    (∀ (s : Scene) (col : Column), SceneInv s → col ∈ s → col.free = 0 →
      ∀ v ∈ col.rows, v ≠ 0) := by
  have hinit : ∀ cols rows : Nat, SceneInv (initScene cols rows) := by
    intro cols rows col hcol
    have hc := List.eq_of_mem_replicate hcol
    subst hc
    show (rows : Int) = (countZeros (List.replicate rows 0) : Int)
    rw [countZeros_replicate]
  refine ⟨hinit, ?_, ?_⟩
  · intro cfg atts cols rows
    exact (populate_inv cfg atts (initScene cols rows) [] (hinit cols rows)
      (by intro c hc; cases hc) List.Pairwise.nil).1
  · intro s col hinv hcol hfree v hv
    have hcInv := hinv col hcol
    have hcz : countZeros col.rows = 0 := by omega
    intro hv0
    subst hv0
    have hmem : (0 : Nat) ∈ col.rows.filter (fun v => v == 0) :=
      List.mem_filter.mpr ⟨hv, by decide⟩
    have hemp : col.rows.filter (fun v => v == 0) = [] := List.length_eq_zero.mp hcz
    rw [hemp] at hmem
    cases hmem

/-- Witness for C10: the invariant after a concrete pass, and the
instantiated no-free-cell fact on the saturated column of sceneEx. -/
theorem occupancy_free_count_inv_witness :
    SceneInv (Circuits.populate cfgEx [aGood] (initScene 4 4) []).1 ∧ (1 : Nat) ≠ 0 := by
  refine ⟨occupancy_free_count_inv.2.1 cfgEx [aGood] 4 4, ?_⟩
  exact occupancy_free_count_inv.2.2 sceneEx colFull (by unfold SceneInv; decide)
    (by decide) (by decide) 1 (by decide)

end CircuitBg
